import Mathlib

/-!
Shallow embedding of `src/action/executor.py` (the EGA_Assignment16 executor):
the file materializer (`process_direct_files`), the capability registry
(`make_tool_proxy` / tool proxies), the restricted execution context
(`SAFE_BUILTINS` plus `safe_globals`), the source rewriter (`AwaitTransformer`
and the `__async_exec` wrapper), the variant runner
(`execute_python_code_variant`), the trial sequencer (`execute_code_variants`)
and the orchestration entry point (`run_user_code`).

Python values, dictionaries and a small statement/expression language are
embedded explicitly; Python dictionaries are association lists where a later
entry shadows an earlier one (exactly the semantics of `{**a, **b}` and
`dict.update`).  Wall-clock timing fields (`execution_time`, `total_time`) are
not modelled.  String comparison is code-point lexicographic, as in CPython.
-/

/-! ### Strings: executable lexicographic order and helpers

CPython compares strings by code point, lexicographically.  `String.le` in
core does not reduce in the kernel, so we give an executable equivalent over
the character lists. -/

/-- Lexicographic comparison of character lists by code point. -/
def charsLe : List Char → List Char → Bool
  | [], _ => true
  | _ :: _, [] => false
  | a :: as, b :: bs =>
    if a.toNat < b.toNat then true
    else if b.toNat < a.toNat then false
    else charsLe as bs

/-- Python's `<=` on strings: code-point lexicographic order. -/
def strLe (a b : String) : Bool := charsLe a.data b.data

theorem charsLe_cons_iff (a b : Char) (as bs : List Char) :
    charsLe (a :: as) (b :: bs) = true ↔
      a.toNat < b.toNat ∨ (a.toNat = b.toNat ∧ charsLe as bs = true) := by
  simp only [charsLe]
  by_cases h1 : a.toNat < b.toNat
  · simp [h1]
  · by_cases h2 : b.toNat < a.toNat
    · have h3 : a.toNat ≠ b.toNat := by omega
      simp [h1, h2, h3]
    · have h3 : a.toNat = b.toNat := by omega
      simp [h1, h2, h3]

theorem charsLe_trans : ∀ x y z : List Char,
    charsLe x y = true → charsLe y z = true → charsLe x z = true := by
  intro x
  induction x with
  | nil => intro y z _ _; rfl
  | cons a as ih =>
    intro y z hxy hyz
    cases y with
    | nil => exact absurd hxy (by simp [charsLe])
    | cons b bs =>
      cases z with
      | nil => exact absurd hyz (by simp [charsLe])
      | cons c cs =>
        rw [charsLe_cons_iff] at hxy hyz ⊢
        rcases hxy with h | ⟨h, hx⟩
        · rcases hyz with g | ⟨g, _⟩
          · exact Or.inl (by omega)
          · exact Or.inl (by omega)
        · rcases hyz with g | ⟨g, hy⟩
          · exact Or.inl (by omega)
          · exact Or.inr ⟨by omega, ih bs cs hx hy⟩

theorem charsLe_total : ∀ x y : List Char, (charsLe x y || charsLe y x) = true := by
  intro x
  induction x with
  | nil => intro y; simp [charsLe]
  | cons a as ih =>
    intro y
    cases y with
    | nil => simp [charsLe]
    | cons b bs =>
      simp only [Bool.or_eq_true, charsLe_cons_iff]
      rcases Nat.lt_trichotomy a.toNat b.toNat with h | h | h
      · exact Or.inl (Or.inl h)
      · rcases Bool.or_eq_true .. ▸ ih bs with hx | hx
        · exact Or.inl (Or.inr ⟨h, hx⟩)
        · exact Or.inr (Or.inr ⟨h.symm, hx⟩)
      · exact Or.inr (Or.inl h)

theorem strLe_trans (x y z : String) :
    strLe x y = true → strLe y z = true → strLe x z = true :=
  charsLe_trans x.data y.data z.data

theorem strLe_total (x y : String) : (strLe x y || strLe y x) = true :=
  charsLe_total x.data y.data

/-- `'; '.join(parts)` / `', '.join(parts)`: Python's `str.join`. -/
def joinSep (sep : String) : List String → String
  | [] => ""
  | [x] => x
  | x :: y :: rest => x ++ sep ++ joinSep sep (y :: rest)

/-- `name.startswith('__')`, executable over the character list. -/
def startsWithUU (s : String) : Bool :=
  match s.data with
  | '_' :: '_' :: _ => true
  | _ => false

/-- UTF-8 byte length of a string, `len(content.encode('utf-8'))`. -/
def utf8Len (s : String) : Nat :=
  s.data.foldl (fun n c => n + c.utf8Size) 0

/-! ### Python dictionaries as association lists

A dict is a list of key/value entries; a later entry shadows an earlier one,
so `{**a, **b}` and `a.update(b)` are both plain list append. -/

/-- Dictionary lookup: the LAST entry for a key wins (so that `xs ++ ys`
models updating `xs` with `ys`). -/
def dget {α : Type} : List (String × α) → String → Option α
  | [], _ => none
  | (k, v) :: rest, key =>
    match dget rest key with
    | some w => some w
    | none => if k = key then some v else none

theorem dget_append_right {α : Type} (xs ys : List (String × α)) (k : String) (v : α)
    (h : dget ys k = some v) : dget (xs ++ ys) k = some v := by
  induction xs with
  | nil => simpa using h
  | cons x xs ih => simp [dget, ih]

theorem dget_append_left {α : Type} (xs ys : List (String × α)) (k : String)
    (h : dget ys k = none) : dget (xs ++ ys) k = dget xs k := by
  induction xs with
  | nil => simpa using h
  | cons x xs ih => simp [dget, ih]

/-! ### POSIX-style path helpers (`pathlib.PurePosixPath`)

`Path(filename).name` keeps the final path component: components are the
slash-separated pieces with empty pieces and `'.'` pieces dropped (pathlib
normalises those away), and `name` is the last component, or `''` when there
is none.  Note that a final `'..'` component is KEPT by pathlib. -/

/-- One step of splitting on `'/'`: push a new empty piece at a separator,
otherwise extend the current head piece. -/
def splitSlashStep (c : Char) (acc : List (List Char)) : List (List Char) :=
  match acc with
  | [] => if c = '/' then [[], []] else [[c]]
  | piece :: rest => if c = '/' then [] :: piece :: rest else (c :: piece) :: rest

/-- Split a path string on `'/'` into raw pieces. -/
def splitSlash (s : String) : List String :=
  (s.data.foldr splitSlashStep [[]]).map (fun cs => String.mk cs)

/-- `PurePosixPath(s).parts` (for a relative path): pieces with `''` and `'.'`
dropped.  pathlib does NOT resolve `'..'`, so `'..'` pieces survive. -/
def pathParts (s : String) : List String :=
  (splitSlash s).filter (fun p => p ≠ "" && p ≠ ".")

/-- `Path(s).name`: the final component, `''` if there is none. -/
def pathName (s : String) : String :=
  (pathParts s).getLast?.getD ""

/-- `parent / child` on paths, with pathlib's rule that an empty right operand
contributes nothing. -/
def pjoin (base child : String) : String :=
  if child = "" then base else base ++ "/" ++ child

/-- Resolve `'..'` components the way the OS does when the path is opened
(each `'..'` pops the preceding component). -/
def normParts (ps : List String) : List String :=
  ps.foldl (fun acc p => if p = ".." then acc.dropLast else acc ++ [p]) []

/-- The filesystem-resolved form of a (relative) path string. -/
def resolvePath (s : String) : String :=
  joinSep "/" (normParts (pathParts s))

/-! ### Values and the executed-code language

`execute_python_code_variant` runs submitted Python source.  The submitted
code is embedded as a small statement/expression language covering the
constructs the specification's contracts speak about: assignments, bare
expression statements, `return`, `global` declarations, `raise`, name /
constant / attribute expressions, calls and `await`.  A variant's source text
is represented by its `ast.parse` outcome (`Code` below); the Python parser
itself is not re-implemented. -/

/-- A raised Python exception: type name and message (`type(e).__name__`,
`str(e)`). -/
structure Exc where
  kind : String
  msg : String
  deriving DecidableEq

/-- Runtime values.  `proxyFn` is the async closure made by `make_tool_proxy`;
calling it yields an (unawaited) `coro`; awaiting the `coro` performs the tool
call.  `scaffoldFn` is the compiled `__async_exec` function object that
`exec` binds into `local_vars`.  `builtin` tags an entry of the
`SAFE_BUILTINS` allow-list; `mcpHandle` is the `multi_mcp` object. -/
inductive Value where
  | none
  | bool (b : Bool)
  | int (n : Int)
  | str (s : String)
  | dict (entries : List (String × Value))
  | builtin (name : String)
  | proxyFn (tool : String)
  | coro (tool : String) (args : List Value)
  | mcpHandle
  | scaffoldFn

/-- Expressions of the embedded language. -/
inductive Expr where
  | const (v : Value)
  | name (x : String)
  | attr (obj : Expr) (field : String)
  | call (callee : Expr) (args : List Expr)
  | awaitE (e : Expr)

/-- Statements of the embedded language.  `raiseStmt k m` stands for
`raise K(m)` with `type(e).__name__ = k`, `str(e) = m`. -/
inductive Stmt where
  | assign (x : String) (e : Expr)
  | exprStmt (e : Expr)
  | ret (e : Option Expr)
  | globalDecl (x : String)
  | raiseStmt (kind msg : String)

/-- A quoted name as CPython prints it in error messages. -/
def q (s : String) : String := "\x27" ++ s ++ "\x27"

/-! ### The Source Rewriter (`AwaitTransformer` and the `__async_exec` wrapper)

`AwaitTransformer.visit_Call` first transforms the children
(`generic_visit`), then wraps the call in `ast.Await` exactly when the callee
is a bare `ast.Name` whose id is a key of `tool_funcs`. -/

mutual

/-- The rewrite performed by `AwaitTransformer` on one expression. -/
def AwaitTransformer (tools : List String) : Expr → Expr
  | .const v => .const v
  | .name x => .name x
  | .attr obj f => .attr (AwaitTransformer tools obj) f
  | .awaitE e => .awaitE (AwaitTransformer tools e)
  | .call callee args =>
    let callee' := AwaitTransformer tools callee
    let args' := AwaitTransformerList tools args
    match callee' with
    | .name f => if f ∈ tools then .awaitE (.call (.name f) args') else .call (.name f) args'
    | c => .call c args'

/-- `generic_visit` over a list of argument expressions. -/
def AwaitTransformerList (tools : List String) : List Expr → List Expr
  | [] => []
  | e :: es => AwaitTransformer tools e :: AwaitTransformerList tools es

end

/-- The rewrite applied to one statement of the wrapped body. -/
def transformStmt (tools : List String) : Stmt → Stmt
  | .assign x e => .assign x (AwaitTransformer tools e)
  | .exprStmt e => .exprStmt (AwaitTransformer tools e)
  | .ret (some e) => .ret (some (AwaitTransformer tools e))
  | .ret Option.none => .ret Option.none
  | .globalDecl x => .globalDecl x
  | .raiseStmt k m => .raiseStmt k m

/-- The `ast.AsyncFunctionDef` the runner builds. -/
structure AsyncFunctionDef where
  name : String
  args : List String
  body : List Stmt

/-- Wrap the parsed statements as the body of the zero-parameter async
function `__async_exec` and apply `AwaitTransformer` to it (the transformer
visits the whole function, i.e. every statement of its body). -/
def buildAsyncExec (tools : List String) (parsedBody : List Stmt) : AsyncFunctionDef :=
  { name := "__async_exec", args := [], body := parsedBody.map (transformStmt tools) }

/-! ### The capability registry and the restricted execution context -/

/-- The behaviour of one named tool operation of the external collaborator:
`mcp.function_wrapper(tool_name, *args)` either returns a value or raises. -/
abbrev ToolImpl := List Value → Except Exc Value

/-- The live set of operations `multi_mcp.get_all_tools()` exposes, with
their behaviours. -/
abbrev ToolSpec := List (String × ToolImpl)

/-- Python dict of runtime values. -/
abbrev PyDict := List (String × Value)

/-- `make_tool_proxy(tool_name, mcp)`: the async proxy closure for one tool. -/
def make_tool_proxy (tool_name : String) : Value := Value.proxyFn tool_name

/-- `tool_funcs`: one proxy per tool, when `multi_mcp` is truthy. -/
def toolFuncs (multi_mcp : Option ToolSpec) : PyDict :=
  match multi_mcp with
  | Option.none => []
  | some ts => ts.map (fun t => (t.1, make_tool_proxy t.1))

/-- The keys of `tool_funcs` (what `AwaitTransformer` tests membership in). -/
def toolNamesOf (multi_mcp : Option ToolSpec) : List String :=
  match multi_mcp with
  | Option.none => []
  | some ts => ts.map (fun t => t.1)

/-- The tool behaviours reachable at await time. -/
def toolSpecOf (multi_mcp : Option ToolSpec) : ToolSpec :=
  match multi_mcp with
  | Option.none => []
  | some ts => ts

/-- The names of the `SAFE_BUILTINS['__builtins__']` allow-list, in source
order. -/
def SAFE_BUILTINS_NAMES : List String :=
  ["len", "str", "int", "float", "bool", "list", "dict", "tuple", "set",
   "enumerate", "range", "zip", "print", "type", "isinstance",
   "ValueError", "TypeError", "KeyError", "IndexError", "FileNotFoundError",
   "Exception", "min", "max", "sum", "open", "json", "os", "Path"]

/-- `SAFE_BUILTINS`: a dict holding the allow-list under `'__builtins__'`. -/
def SAFE_BUILTINS : PyDict :=
  [("__builtins__", Value.dict (SAFE_BUILTINS_NAMES.map (fun n => (n, Value.builtin n))))]

/-- The parameters `execute_python_code_variant` closes over besides the code:
`multi_mcp`, `session_id`, `globals_schema`, `inputs`.  A `None`
`globals_schema`/`inputs` is modelled as `[]`: the source applies `or {}` and
truthiness tests, under which the two are indistinguishable. -/
structure ExecParams where
  tools : Option ToolSpec
  session_id : String
  globals_schema : PyDict
  inputs : PyDict

/-- `f"media/generated/{session_id}"`. -/
def output_dir_of (sid : String) : String := "media/generated/" ++ sid

/-- `safe_globals`: `{**SAFE_BUILTINS, **tool_funcs, 'multi_mcp': …,
'session_id': …, 'output_dir': …, 'inputs': …, 'globals_schema': …}` followed
by `safe_globals.update(globals_schema)` when `globals_schema` is truthy.
Later entries of the association list shadow earlier ones (`dget`). -/
def safe_globals (p : ExecParams) : PyDict :=
  SAFE_BUILTINS ++ toolFuncs p.tools ++
    [("multi_mcp", match p.tools with | Option.none => Value.none | some _ => Value.mcpHandle),
     ("session_id", Value.str p.session_id),
     ("output_dir", Value.str (output_dir_of p.session_id)),
     ("inputs", Value.dict p.inputs),
     ("globals_schema", Value.dict p.globals_schema)] ++
    (if p.globals_schema.isEmpty then [] else p.globals_schema)

/-! ### The evaluator for the rewritten unit of work

CPython scoping inside the `exec`-compiled `__async_exec`: a name assigned
somewhere in the function body and not declared `global` is local throughout
the function (reading it before its assignment is an `UnboundLocalError`);
any other name is looked up in `safe_globals` and then in
`safe_globals['__builtins__']`.  Awaited proxy calls run the tool behaviour;
an unawaited proxy call just produces a coroutine object. -/

/-- Names assigned by the statement list (assignment targets). -/
def assignTargets (body : List Stmt) : List String :=
  body.foldr (fun s acc => match s with | .assign x _ => x :: acc | _ => acc) []

/-- Names declared `global` in the statement list. -/
def globalDecls (body : List Stmt) : List String :=
  body.foldr (fun s acc => match s with | .globalDecl x => x :: acc | _ => acc) []

/-- The function-local names of the unit's body. -/
def localNames (body : List Stmt) : List String :=
  (assignTargets body).filter (fun x => x ∉ globalDecls body)

/-- Builtin lookup through `safe_globals['__builtins__']`. -/
def lookupBuiltin (g : PyDict) (x : String) : Option Value :=
  match dget g "__builtins__" with
  | some (Value.dict b) => dget b x
  | _ => none

/-- Global name resolution as the executed code sees it: the globals dict
first, then the builtins dict. -/
def lookupGlobalName (g : PyDict) (x : String) : Option Value :=
  match dget g x with
  | some v => some v
  | Option.none => lookupBuiltin g x

/-- `mcp.function_wrapper(tool_name, *args)`: first matching registered tool. -/
def callTool (ts : ToolSpec) (t : String) (args : List Value) : Except Exc Value :=
  match ts with
  | [] => .error ⟨"KeyError", q t⟩
  | (n, f) :: rest => if n = t then f args else callTool rest t args

/-- Behaviour of the modelled allow-listed builtins.  Only the behaviours the
verified contracts exercise are modelled; anything else is a modelled
`TypeError` (no claim depends on those behaviours, only on the allow-list
names). -/
def applyBuiltin (b : String) (vs : List Value) : Except Exc Value :=
  match b, vs with
  | "len", [Value.str s] => .ok (.int s.length)
  | "len", [Value.dict d] => .ok (.int d.length)
  | "str", [Value.str s] => .ok (.str s)
  | "print", _ => .ok .none
  | _, _ => .error ⟨"TypeError", "builtin behaviour outside the modelled surface: " ++ b⟩

/-- Calling a value.  Calling an `async def` proxy returns its coroutine
without running it; builtins run; nothing else in the modelled value surface
is callable. -/
def applyCallable (f : Value) (vs : List Value) : Except Exc Value :=
  match f with
  | .proxyFn t => .ok (.coro t vs)
  | .builtin b => applyBuiltin b vs
  | _ => .error ⟨"TypeError", "object is not callable"⟩

mutual

/-- Evaluate one expression (expressions do not mutate either namespace in
the modelled fragment). -/
def evalExpr (ts : ToolSpec) (lns : List String) (g fr : PyDict) : Expr → Except Exc Value
  | .const v => .ok v
  | .name x =>
    if x ∈ lns then
      match dget fr x with
      | some v => .ok v
      | Option.none =>
        .error ⟨"UnboundLocalError", "local variable " ++ q x ++ " referenced before assignment"⟩
    else
      match lookupGlobalName g x with
      | some v => .ok v
      | Option.none => .error ⟨"NameError", "name " ++ q x ++ " is not defined"⟩
  | .attr obj f => do
    let _ ← evalExpr ts lns g fr obj
    .error ⟨"AttributeError", "attribute access is outside the modelled value surface: " ++ f⟩
  | .awaitE e => do
    let v ← evalExpr ts lns g fr e
    match v with
    | .coro t args => callTool ts t args
    | _ => .error ⟨"TypeError", "object cannot be used in await expression"⟩
  | .call callee args => do
    let f ← evalExpr ts lns g fr callee
    let vs ← evalExprList ts lns g fr args
    applyCallable f vs

/-- Evaluate call arguments left to right. -/
def evalExprList (ts : ToolSpec) (lns : List String) (g fr : PyDict) :
    List Expr → Except Exc (List Value)
  | [] => .ok []
  | e :: es => do
    let v ← evalExpr ts lns g fr e
    let vs ← evalExprList ts lns g fr es
    .ok (v :: vs)

end

/-- Result of driving the coroutine to completion: the returned value
(`Value.none` when the body falls off the end or returns bare), with the
final local frame and final globals dict, or a raised exception. -/
inductive UnitResult where
  | finished (ret : Value) (fr g : PyDict)
  | raised (e : Exc) (fr g : PyDict)

/-- Run the unit's statements in order.  Assignments bind in the local frame
unless the target is declared `global`, in which case they mutate the globals
dict (the one and only `safe_globals` object of this attempt). -/
def runStmts (ts : ToolSpec) (lns gns : List String) :
    List Stmt → PyDict → PyDict → UnitResult
  | [], fr, g => .finished .none fr g
  | s :: rest, fr, g =>
    match s with
    | .globalDecl _ => runStmts ts lns gns rest fr g
    | .raiseStmt k m => .raised ⟨k, m⟩ fr g
    | .ret Option.none => .finished .none fr g
    | .ret (some e) =>
      match evalExpr ts lns g fr e with
      | .ok v => .finished v fr g
      | .error ex => .raised ex fr g
    | .exprStmt e =>
      match evalExpr ts lns g fr e with
      | .ok _ => runStmts ts lns gns rest fr g
      | .error ex => .raised ex fr g
    | .assign x e =>
      match evalExpr ts lns g fr e with
      | .ok v =>
        if x ∈ gns then runStmts ts lns gns rest fr (g ++ [(x, v)])
        else runStmts ts lns gns rest (fr ++ [(x, v)]) g
      | .error ex => .raised ex fr g

/-- `await local_vars['__async_exec']()`: run the rewritten body with a fresh
empty local frame against the given globals dict. -/
def runAsyncUnit (ts : ToolSpec) (body : List Stmt) (g : PyDict) : UnitResult :=
  runStmts ts (localNames body) (globalDecls body) body [] g

/-! ### The Variant Runner (`execute_python_code_variant`) -/

/-- One variant's source text, represented by its `ast.parse` outcome:
`invalid msg` is source rejected with a `SyntaxError`, `parsed body` is
source whose statement sequence parses to `body`. -/
inductive Code where
  | invalid (msg : String)
  | parsed (body : List Stmt)

/-- Very small filesystem model: the sets of existing directories and
existing regular files, both as resolved path strings. -/
structure Fs where
  dirs : List String
  files : List String

/-- `output_dir.mkdir(parents=True, exist_ok=True)` (modelled as always
succeeding). -/
def mkdirParents (fs : Fs) (sid : String) : Fs :=
  { fs with dirs := fs.dirs ++ ["media", "media/generated", resolvePath (output_dir_of sid)] }

/-- `str(parent_dir_of p)`: all but the final component. -/
def dirnameOf (p : String) : String :=
  joinSep "/" ((pathParts p).dropLast)

/-- `[str(f) for f in output_dir.iterdir() if f.is_file()]`: the files whose
parent directory is the session's output directory (a snapshot, not a diff). -/
def listOutputFiles (fs : Fs) (sid : String) : List String :=
  fs.files.filter (fun p => dirnameOf p = resolvePath (output_dir_of sid))

/-- The structured outcome dict of one attempt / of the trial sequence.  Keys
only some code paths set are `Option` fields defaulting to `none`;
`execution_time` is not modelled. -/
structure Outcome where
  status : String
  result : Value
  created_files : List String
  error : Option String
  successful_variant : Option String := Option.none
  total_variants_tried : Option Nat := Option.none
  all_errors : Option (List String) := Option.none
  failed_variants : Option Nat := Option.none

/-- The result extraction of `execute_python_code_variant`: the unit's
return value unless it is `None`, in which case the `'__'`-filtered
`local_vars` mapping. -/
def extractResult (local_vars : PyDict) (ret : Value) : Value :=
  match ret with
  | .none => Value.dict (local_vars.filter (fun kv => !(startsWithUU kv.1)))
  | v => v

/-- `execute_python_code_variant`, additionally exposing the final state of
this attempt's `safe_globals` dict (the caller discards it; it is exposed
here so freshness across attempts is a provable statement rather than a
modelling artefact).  Steps, as in the source: build `tool_funcs` and
`safe_globals`; parse; wrap as `__async_exec` and rewrite awaits; `exec` the
compiled module, which binds exactly the wrapper into `local_vars`; await the
wrapper; list the output directory; extract the result (`local_vars` minus
`'__'`-prefixed keys when the unit returned `None`).  Any exception raised
while parsing, compiling or running lands in the `except` and produces the
failure dict. -/
def execute_python_code_variant_full (code : Code) (p : ExecParams) (fs : Fs) :
    Outcome × PyDict :=
  let g0 := safe_globals p
  match code with
  | .invalid m =>
    ({ status := "failed", result := .dict [], created_files := [],
       error := some ("SyntaxError: " ++ m) }, g0)
  | .parsed body =>
    let unit := buildAsyncExec (toolNamesOf p.tools) body
    let local_vars : PyDict := [(unit.name, Value.scaffoldFn)]
    match runAsyncUnit (toolSpecOf p.tools) unit.body g0 with
    | .raised e _ g1 =>
      ({ status := "failed", result := .dict [], created_files := [],
         error := some (e.kind ++ ": " ++ e.msg) }, g1)
    | .finished ret _ g1 =>
      let created := listOutputFiles (mkdirParents fs p.session_id) p.session_id
      let result := extractResult local_vars ret
      ({ status := "success", result := result, created_files := created, error := Option.none },
       g1)

/-- The variant runner as its callers see it: the outcome dict alone. -/
def execute_python_code_variant (code : Code) (p : ExecParams) (fs : Fs) : Outcome :=
  (execute_python_code_variant_full code p fs).1

/-! ### The Variant Trial Sequencer (`execute_code_variants`) -/

/-- The order `sorted(code_variants.items())` sorts by: the tuple comparison
on `(name, code)` pairs, which never reaches the second component because
dict keys are unique — so it is the lexicographic order of the names. -/
def variantLe (a b : String × Code) : Prop := strLe a.1 b.1 = true

instance : DecidableRel variantLe := fun a b =>
  inferInstanceAs (Decidable (strLe a.1 b.1 = true))

instance : IsTotal (String × Code) variantLe :=
  ⟨fun a b => Bool.or_eq_true .. ▸ strLe_total a.1 b.1⟩

instance : IsTrans (String × Code) variantLe :=
  ⟨fun a b c => strLe_trans a.1 b.1 c.1⟩

/-- `sorted(code_variants.items())`: the variants in ascending lexicographic
order of their names (CPython's `sorted` is a stable comparison sort; any
stable sort by `variantLe` computes it). -/
def sortVariants (cv : List (String × Code)) : List (String × Code) :=
  cv.insertionSort variantLe

/-- The error entry recorded for a failed variant:
`f"{variant_name}: {result['error']}"`. -/
def variantErrMsg (n : String) (r : Outcome) : String :=
  n ++ ": " ++ r.error.getD "None"

/-- The sequencer's loop over the sorted variants, carrying `all_errors`.
`run` is `execute_python_code_variant` applied to the loop-invariant
arguments (`multi_mcp`, `session_id`, `globals_schema`, `inputs`). -/
def trialLoop (run : Code → Outcome) :
    List (String × Code) → List String → Except (List String) Outcome
  | [], errs => .error errs
  | (n, c) :: rest, errs =>
    let r := run c
    if r.status = "success" then
      .ok { r with successful_variant := some n,
                   total_variants_tried := some (errs.length + 1),
                   all_errors := some errs }
    else
      trialLoop run rest (errs ++ [variantErrMsg n r])

/-- `execute_code_variants`: try each variant in sorted order until one
succeeds; if none does, return the aggregate failure dict. -/
def execute_code_variants (run : Code → Outcome) (code_variants : List (String × Code)) :
    Outcome :=
  let sorted_variants := sortVariants code_variants
  match trialLoop run sorted_variants [] with
  | .ok r => r
  | .error all_errors =>
    { status := "failed", result := .dict [], created_files := [],
      error := some ("All code variants failed. Errors: " ++ joinSep "; " all_errors),
      failed_variants := some sorted_variants.length,
      all_errors := some all_errors }

/-- The names the sequencer's loop actually evaluates, in loop order: every
variant up to and including the first success (all of them when none
succeeds). -/
def attemptTrace (run : Code → Outcome) : List (String × Code) → List String
  | [] => []
  | (n, c) :: rest =>
    if (run c).status = "success" then [n] else n :: attemptTrace run rest

/-- The evaluated variants of one `execute_code_variants` call. -/
def attemptedVariants (run : Code → Outcome) (cv : List (String × Code)) : List String :=
  attemptTrace run (sortVariants cv)

/-! ### The File Materializer (`process_direct_files`) -/

/-- The file-phase result dict (`execution_time` not modelled). -/
structure FileResults where
  created_files : List String
  file_count : Nat
  total_size : Nat
  status : String
  errors : List String

/-- `str(e)` for the `IsADirectoryError` raised by `open(p, 'w')` when `p`
is an existing directory. -/
def isADirMsg (p : String) : String :=
  "[Errno 21] Is a directory: " ++ q p

/-- One iteration of the write loop: sanitize the filename to
`Path(filename).name`, join it onto the output directory, attempt the write;
any exception is caught, recorded in `errors` and flips the status to
`partial_failure`.  `ioFail p = some msg` models `open`/`write` raising with
message `msg` for reasons other than the target being a directory. -/
def writeOneFile (output_dir : String) (ioFail : String → Option String)
    (acc : FileResults × Fs) (fc : String × String) : FileResults × Fs :=
  let (results, fs) := acc
  let (filename, content) := fc
  let safe_filename := pathName filename
  let filepath := pjoin output_dir safe_filename
  if resolvePath filepath ∈ fs.dirs then
    ({ results with
        errors := results.errors ++ ["Failed to create " ++ filename ++ ": " ++ isADirMsg filepath],
        status := "partial_failure" }, fs)
  else
    match ioFail filepath with
    | some m =>
      ({ results with
          errors := results.errors ++ ["Failed to create " ++ filename ++ ": " ++ m],
          status := "partial_failure" }, fs)
    | Option.none =>
      ({ results with
          created_files := results.created_files ++ [filepath],
          total_size := results.total_size + utf8Len content },
       { fs with files := fs.files ++ [resolvePath filepath] })

/-- `process_direct_files`: ensure the session directory exists, write each
entry of the files dict, count and size the successful writes. -/
def process_direct_files (files_dict : List (String × String)) (session_id : String)
    (ioFail : String → Option String) (fs0 : Fs) : FileResults × Fs :=
  let output_dir := output_dir_of session_id
  let fs1 := mkdirParents fs0 session_id
  let init : FileResults :=
    { created_files := [], file_count := 0, total_size := 0, status := "success", errors := [] }
  let (res, fs2) := files_dict.foldl (writeOneFile output_dir ioFail) (init, fs1)
  ({ res with file_count := res.created_files.length }, fs2)

/-! ### The Orchestration Entry Point (`run_user_code`) -/

/-- The CoderAgent output: each key may be absent (`Option.none`) or present
with a mapping (possibly empty — the source tests presence AND truthiness). -/
structure OutputData where
  files : Option (List (String × String))
  code_variants : Option (List (String × Code))

/-- The combined result dict.  `file_results` / `code_results` start as `{}`
and are modelled as `Option` fields; `total_time` is not modelled. -/
structure RunResults where
  status : String
  session_id : String
  operations : List String
  created_files : List String
  file_results : Option FileResults
  code_results : Option Outcome
  error : Option String

/-- Python's `repr` of a list of strings, used by the f-string
`f"File creation issues: {…}"`. -/
def pyStrListRepr (l : List String) : String :=
  "[" ++ joinSep ", " (l.map q) ++ "]"

/-- `run_user_code`: phase 1 (direct files) when a nonempty `files` mapping is
present, phase 2 (code variants) when a nonempty `code_variants` mapping is
present, then the no-operation check.  `unexpected = some m` models an
exception with message `m` escaping the `try` body from outside the per-file
and per-variant handlers (e.g. the directory creation at the top of a phase);
the `except` then returns the results dict with `status='failed'` and the raw
message. -/
def run_user_code (output_data : OutputData) (p : ExecParams)
    (ioFail : String → Option String) (unexpected : Option String) (fs0 : Fs) : RunResults :=
  let results0 : RunResults :=
    { status := "success", session_id := p.session_id, operations := [],
      created_files := [], file_results := Option.none, code_results := Option.none,
      error := Option.none }
  match unexpected with
  | some m => { results0 with status := "failed", error := some m }
  | Option.none =>
    let phase1 : Option FileResults × Fs :=
      match output_data.files with
      | some fd =>
        if fd.isEmpty then (Option.none, fs0)
        else
          let (fr, fs') := process_direct_files fd p.session_id ioFail fs0
          (some fr, fs')
      | Option.none => (Option.none, fs0)
    let results1 :=
      match phase1.1 with
      | Option.none => results0
      | some fr =>
        { results0 with
            file_results := some fr,
            operations := results0.operations ++ ["direct_files"],
            created_files := results0.created_files ++ fr.created_files,
            status := if fr.status ≠ "success" then "partial_failure" else results0.status,
            error := if fr.status ≠ "success" then
                some ("File creation issues: " ++ pyStrListRepr fr.errors)
              else results0.error }
    let results2 :=
      match output_data.code_variants with
      | some cv =>
        if cv.isEmpty then results1
        else
          let code_results :=
            execute_code_variants (fun c => execute_python_code_variant c p phase1.2) cv
          let r :=
            { results1 with
                code_results := some code_results,
                operations := results1.operations ++ ["python_code"],
                created_files := results1.created_files ++
                  (if code_results.created_files.isEmpty then [] else code_results.created_files) }
          if code_results.status ≠ "success" then
            { r with
                status := if r.status = "success" then "partial_failure" else r.status,
                error := some ("Code execution failed: " ++ code_results.error.getD "None") }
          else r
      | Option.none => results1
    if results2.operations.isEmpty then
      { results2 with status := "no_operation",
                      error := some "No files or code_variants found in output" }
    else results2

/-! ### Lemmas about the trial sequencer -/

theorem sortVariants_sorted (cv : List (String × Code)) :
    (sortVariants cv).Sorted variantLe :=
  List.sorted_insertionSort variantLe cv

theorem sortVariants_perm (cv : List (String × Code)) :
    (sortVariants cv).Perm cv :=
  List.perm_insertionSort variantLe cv

theorem trialLoop_append_fails (run : Code → Outcome) :
    ∀ (pre l : List (String × Code)) (errs : List String),
      (∀ y ∈ pre, (run y.2).status ≠ "success") →
      trialLoop run (pre ++ l) errs =
        trialLoop run l (errs ++ pre.map (fun y => variantErrMsg y.1 (run y.2))) := by
  intro pre
  induction pre with
  | nil => intro l errs _; simp
  | cons y pre ih =>
    intro l errs h
    obtain ⟨n, c⟩ := y
    have hy : (run c).status ≠ "success" := h (n, c) (by simp)
    simp only [List.cons_append, trialLoop, if_neg hy, List.append_eq]
    rw [ih l (errs ++ [variantErrMsg n (run c)]) (fun z hz => h z (by simp [hz]))]
    simp

theorem trialLoop_all_fail (run : Code → Outcome) (l : List (String × Code)) (errs : List String)
    (h : ∀ y ∈ l, (run y.2).status ≠ "success") :
    trialLoop run l errs = .error (errs ++ l.map (fun y => variantErrMsg y.1 (run y.2))) := by
  have h0 := trialLoop_append_fails run l [] errs h
  simpa [trialLoop] using h0

theorem trialLoop_first_success (run : Code → Outcome)
    (pre : List (String × Code)) (x : String × Code) (post : List (String × Code))
    (errs : List String)
    (hpre : ∀ y ∈ pre, (run y.2).status ≠ "success")
    (hx : (run x.2).status = "success") :
    trialLoop run (pre ++ x :: post) errs =
      Except.ok { run x.2 with
        successful_variant := some x.1,
        total_variants_tried :=
          some ((errs ++ pre.map (fun y => variantErrMsg y.1 (run y.2))).length + 1),
        all_errors := some (errs ++ pre.map (fun y => variantErrMsg y.1 (run y.2))) } := by
  rw [trialLoop_append_fails run pre (x :: post) errs hpre]
  obtain ⟨n, c⟩ := x
  simp only [trialLoop, if_pos hx]

theorem attemptTrace_append_fails (run : Code → Outcome) :
    ∀ (pre l : List (String × Code)),
      (∀ y ∈ pre, (run y.2).status ≠ "success") →
      attemptTrace run (pre ++ l) = pre.map Prod.fst ++ attemptTrace run l := by
  intro pre
  induction pre with
  | nil => intro l _; simp
  | cons y pre ih =>
    intro l h
    obtain ⟨n, c⟩ := y
    have hy : (run c).status ≠ "success" := h (n, c) (by simp)
    simp only [List.cons_append, attemptTrace, if_neg hy, List.map_cons, List.append_eq]
    rw [ih l (fun z hz => h z (by simp [hz]))]

theorem attemptTrace_isPrefix (run : Code → Outcome) :
    ∀ l : List (String × Code), attemptTrace run l <+: l.map Prod.fst := by
  intro l
  induction l with
  | nil => exact List.nil_prefix
  | cons y l ih =>
    obtain ⟨n, c⟩ := y
    simp only [attemptTrace, List.map_cons]
    by_cases h : (run c).status = "success"
    · rw [if_pos h]
      exact ⟨l.map Prod.fst, rfl⟩
    · rw [if_neg h]
      obtain ⟨t, ht⟩ := ih
      exact ⟨t, by simp [ht]⟩

/-! ### Claim C1 -/

/-- **C1** — For every variant mapping, the Trial Sequencer attempts variants
in ascending lexicographic order of their names (the attempted names are
sorted and form a prefix of the sorted name list) and, once one attempt
returns success, it returns that annotated outcome immediately and never
evaluates any later variant (no name after the first success is ever in the
evaluated set). -/
theorem trial_order_and_early_stop (run : Code → Outcome) (cv : List (String × Code))
    (hnd : (cv.map Prod.fst).Nodup) :
    (attemptedVariants run cv).Sorted (fun a b => strLe a b = true)
    ∧ attemptedVariants run cv <+: (sortVariants cv).map Prod.fst
    ∧ (∀ pre x post, sortVariants cv = pre ++ x :: post →
        (∀ y ∈ pre, (run y.2).status ≠ "success") →
        (run x.2).status = "success" →
        execute_code_variants run cv =
          { run x.2 with
              successful_variant := some x.1,
              total_variants_tried := some (pre.length + 1),
              all_errors := some (pre.map (fun y => variantErrMsg y.1 (run y.2))) }
        ∧ ∀ z ∈ post, z.1 ∉ attemptedVariants run cv) := by
  refine ⟨?_, attemptTrace_isPrefix run (sortVariants cv), ?_⟩
  · have hs : ((sortVariants cv).map Prod.fst).Pairwise (fun a b => strLe a b = true) :=
      (sortVariants_sorted cv).map Prod.fst (fun a b h => h)
    exact List.Pairwise.sublist (attemptTrace_isPrefix run (sortVariants cv)).sublist hs
  · intro pre x post hsplit hpre hx
    constructor
    · simp only [execute_code_variants, hsplit,
        trialLoop_first_success run pre x post [] hpre hx]
      simp
    · intro z hz
      have htr : attemptedVariants run cv = pre.map Prod.fst ++ [x.1] := by
        unfold attemptedVariants
        rw [hsplit, attemptTrace_append_fails run pre (x :: post) hpre]
        obtain ⟨n, c⟩ := x
        simp [attemptTrace, hx]
      have hnd' : ((sortVariants cv).map Prod.fst).Nodup :=
        (((sortVariants_perm cv).map Prod.fst).symm).nodup hnd
      rw [hsplit] at hnd'
      simp only [List.map_append, List.map_cons] at hnd'
      rw [List.nodup_append] at hnd'
      obtain ⟨_, hnd2, hdisj⟩ := hnd'
      rw [htr]
      intro hmem
      rcases List.mem_append.1 hmem with hl | hr
      · exact hdisj hl (List.mem_cons_of_mem _ (List.mem_map_of_mem Prod.fst hz))
      · have hzx : z.1 = x.1 := by simpa using hr
        rw [List.nodup_cons] at hnd2
        exact hnd2.1 (hzx ▸ List.mem_map_of_mem Prod.fst hz)

/-- Witness for C1 at a concrete mapping: names `CODE_1B`, `CODE_1A` where
`CODE_1A` fails and `CODE_1B` succeeds. -/
theorem trial_order_and_early_stop_witness :
    (([("CODE_1B", Code.parsed [.assign "x" (.const (.int 7)), .ret (some (.name "x"))]),
       ("CODE_1A", Code.parsed [.ret (some (.name "y"))])].map Prod.fst).Nodup)
    ∧ ((attemptedVariants
          (fun c => execute_python_code_variant c
            ⟨Option.none, "default_session", [], []⟩ ⟨[], []⟩)
          [("CODE_1B", Code.parsed [.assign "x" (.const (.int 7)), .ret (some (.name "x"))]),
           ("CODE_1A", Code.parsed [.ret (some (.name "y"))])]).Sorted
            (fun a b => strLe a b = true)) := by
  refine ⟨by decide, ?_⟩
  exact (trial_order_and_early_stop
    (fun c => execute_python_code_variant c ⟨Option.none, "default_session", [], []⟩ ⟨[], []⟩)
    [("CODE_1B", Code.parsed [.assign "x" (.const (.int 7)), .ret (some (.name "x"))]),
     ("CODE_1A", Code.parsed [.ret (some (.name "y"))])] (by decide)).1

/-! ### Claim C6 -/

/-- **C6** — Whenever some variant succeeds after exactly `k` earlier variants
failed (here `k = pre.length`), the Trial Sequencer's outcome names that
variant as `successful_variant`, reports `k + 1` as `total_variants_tried`,
and carries exactly the `k` error descriptions of the previously failed
variants, in trial order, as `all_errors`. -/
theorem trial_success_reporting (run : Code → Outcome) (cv : List (String × Code))
    (pre : List (String × Code)) (x : String × Code) (post : List (String × Code))
    (hsplit : sortVariants cv = pre ++ x :: post)
    (hpre : ∀ y ∈ pre, (run y.2).status ≠ "success")
    (hx : (run x.2).status = "success") :
    execute_code_variants run cv =
      { run x.2 with
          successful_variant := some x.1,
          total_variants_tried := some (pre.length + 1),
          all_errors := some (pre.map (fun y => variantErrMsg y.1 (run y.2))) } := by
  simp only [execute_code_variants, hsplit,
    trialLoop_first_success run pre x post [] hpre hx]
  simp

/-- Witness for C6: the first variant raises and the second succeeds; the
outcome reports the second name, two variants tried, and exactly one error
entry describing the first failure. -/
theorem trial_success_reporting_witness :
    (sortVariants [("CODE_1A", Code.parsed [.raiseStmt "ValueError" "boom"]),
                   ("CODE_1B", Code.parsed [.ret (some (.const (.int 7)))])]
        = [("CODE_1A", Code.parsed [.raiseStmt "ValueError" "boom"]),
           ("CODE_1B", Code.parsed [.ret (some (.const (.int 7)))])])
    ∧ execute_code_variants
        (fun c => execute_python_code_variant c
          ⟨Option.none, "default_session", [], []⟩ ⟨[], []⟩)
        [("CODE_1A", Code.parsed [.raiseStmt "ValueError" "boom"]),
         ("CODE_1B", Code.parsed [.ret (some (.const (.int 7)))])] =
      { status := "success", result := Value.int 7, created_files := [], error := Option.none,
        successful_variant := some "CODE_1B",
        total_variants_tried := some 2,
        all_errors := some ["CODE_1A: ValueError: boom"] } := by
  refine ⟨rfl, ?_⟩
  have h := trial_success_reporting
    (fun c => execute_python_code_variant c ⟨Option.none, "default_session", [], []⟩ ⟨[], []⟩)
    [("CODE_1A", Code.parsed [.raiseStmt "ValueError" "boom"]),
     ("CODE_1B", Code.parsed [.ret (some (.const (.int 7)))])]
    [("CODE_1A", Code.parsed [.raiseStmt "ValueError" "boom"])]
    ("CODE_1B", Code.parsed [.ret (some (.const (.int 7)))]) []
    rfl (by intro y hy; simp only [List.mem_singleton] at hy; subst hy; decide) rfl
  exact h.trans rfl

/-! ### Claim C7 -/

theorem isInfix_append_left {α : Type} (x : List α) {l r : List α} (h : l <:+: r) :
    l <:+: x ++ r := by
  obtain ⟨s, t, rfl⟩ := h
  exact ⟨x ++ s, t, by simp⟩

theorem mem_infix_joinSep (sep : String) :
    ∀ (l : List String) (e : String), e ∈ l → e.data <:+: (joinSep sep l).data := by
  intro l
  induction l with
  | nil => intro e he; exact absurd he (List.not_mem_nil e)
  | cons x xs ih =>
    intro e he
    cases xs with
    | nil =>
      have hx : e = x := by simpa using he
      subst hx
      exact List.infix_refl _
    | cons y ys =>
      rcases List.mem_cons.1 he with hx | hmem
      · subst hx
        refine ⟨[], (sep ++ joinSep sep (y :: ys)).data, ?_⟩
        simp [joinSep, String.data_append]
      · have h1 := ih e hmem
        have h2 : (joinSep sep (x :: y :: ys)).data =
            (x ++ sep).data ++ (joinSep sep (y :: ys)).data := by
          simp [joinSep, String.data_append]
        rw [h2]
        exact isInfix_append_left _ h1

/-- **C7** — If every variant of a non-empty mapping fails, the Trial
Sequencer returns one aggregate outcome with status `failed`, whose error
message is the concatenation of every variant's individual error description
in trial (ascending-name) order — in particular each description occurs
inside it — whose `failed_variants` count equals the number of variants, and
whose created-files list is empty. -/
theorem trial_total_failure_aggregate (run : Code → Outcome) (cv : List (String × Code))
    (_hne : cv ≠ [])
    (hall : ∀ y ∈ cv, (run y.2).status ≠ "success") :
    execute_code_variants run cv =
      { status := "failed", result := Value.dict [], created_files := [],
        error := some ("All code variants failed. Errors: " ++
          joinSep "; " ((sortVariants cv).map (fun y => variantErrMsg y.1 (run y.2)))),
        failed_variants := some cv.length,
        all_errors := some ((sortVariants cv).map (fun y => variantErrMsg y.1 (run y.2))) }
    ∧ ∀ y ∈ sortVariants cv,
        (variantErrMsg y.1 (run y.2)).data <:+:
          ("All code variants failed. Errors: " ++
            joinSep "; " ((sortVariants cv).map (fun y => variantErrMsg y.1 (run y.2)))).data := by
  have hall' : ∀ y ∈ sortVariants cv, (run y.2).status ≠ "success" :=
    fun y hy => hall y ((sortVariants_perm cv).subset hy)
  constructor
  · simp only [execute_code_variants, trialLoop_all_fail run (sortVariants cv) [] hall']
    simp [(sortVariants_perm cv).length_eq]
  · intro y hy
    have hmem : variantErrMsg y.1 (run y.2) ∈
        (sortVariants cv).map (fun y => variantErrMsg y.1 (run y.2)) :=
      List.mem_map_of_mem _ hy
    have h1 := mem_infix_joinSep "; " _ _ hmem
    rw [String.data_append]
    exact isInfix_append_left _ h1

/-- Witness for C7: two failing variants; the aggregate error message lists
both failures in name order, the count is 2, and no files are reported. -/
theorem trial_total_failure_aggregate_witness :
    ([("CODE_1B", Code.parsed [.ret (some (.name "y"))]),
      ("CODE_1A", Code.parsed [.raiseStmt "ValueError" "boom"])] ≠
        ([] : List (String × Code)))
    ∧ execute_code_variants
        (fun c => execute_python_code_variant c
          ⟨Option.none, "default_session", [], []⟩ ⟨[], []⟩)
        [("CODE_1B", Code.parsed [.ret (some (.name "y"))]),
         ("CODE_1A", Code.parsed [.raiseStmt "ValueError" "boom"])] =
      { status := "failed", result := Value.dict [], created_files := [],
        error := some ("All code variants failed. Errors: CODE_1A: ValueError: boom; CODE_1B: NameError: name \x27y\x27 is not defined"),
        failed_variants := some 2,
        all_errors := some ["CODE_1A: ValueError: boom",
          "CODE_1B: NameError: name \x27y\x27 is not defined"] } := by
  refine ⟨by simp, ?_⟩
  have h := trial_total_failure_aggregate
    (fun c => execute_python_code_variant c ⟨Option.none, "default_session", [], []⟩ ⟨[], []⟩)
    [("CODE_1B", Code.parsed [.ret (some (.name "y"))]),
     ("CODE_1A", Code.parsed [.raiseStmt "ValueError" "boom"])]
    (by simp)
    (by
      intro y hy
      rcases List.mem_cons.1 hy with h1 | h1
      · subst h1; decide
      · have h2 : y = ("CODE_1A", Code.parsed [.raiseStmt "ValueError" "boom"]) := by
          simpa using h1
        subst h2; decide)
  exact h.1.trans rfl

/-! ### Claim C4 -/

/-- **C4** — Any exception raised while parsing, compiling or running a
variant is caught inside the Variant Runner: a `SyntaxError` from `ast.parse`
and any exception raised by the unit both yield an outcome with status
`failed`, error `f"{type(e).__name__}: {str(e)}"`, empty result and empty
created-files list; and a failed attempt never aborts the trial sequence —
the sequencer's evaluation continues with the remaining variants. -/
theorem runner_catches_all_exceptions (p : ExecParams) (fs : Fs) :
    (∀ m, execute_python_code_variant (Code.invalid m) p fs =
      { status := "failed", result := Value.dict [], created_files := [],
        error := some ("SyntaxError: " ++ m) })
    ∧ (∀ body e fr g1,
        runAsyncUnit (toolSpecOf p.tools)
            (buildAsyncExec (toolNamesOf p.tools) body).body (safe_globals p) =
          UnitResult.raised e fr g1 →
        execute_python_code_variant (Code.parsed body) p fs =
          { status := "failed", result := Value.dict [], created_files := [],
            error := some (e.kind ++ ": " ++ e.msg) })
    ∧ (∀ (run : Code → Outcome) (n : String) (c : Code) (rest : List (String × Code)),
        (run c).status ≠ "success" →
        attemptTrace run ((n, c) :: rest) = n :: attemptTrace run rest) := by
  refine ⟨fun m => rfl, ?_, ?_⟩
  · intro body e fr g1 h
    simp only [execute_python_code_variant, execute_python_code_variant_full, h]
  · intro run n c rest h
    simp [attemptTrace, h]

/-- Witness for C4: a variant reading an undefined name raises `NameError`
inside the unit; the runner converts it into the failure outcome. -/
theorem runner_catches_all_exceptions_witness :
    (runAsyncUnit (toolSpecOf (Option.none : Option ToolSpec))
        (buildAsyncExec (toolNamesOf (Option.none : Option ToolSpec))
          [Stmt.ret (some (.name "y"))]).body
        (safe_globals ⟨Option.none, "default_session", [], []⟩) =
      UnitResult.raised ⟨"NameError", "name \x27y\x27 is not defined"⟩ []
        (safe_globals ⟨Option.none, "default_session", [], []⟩))
    ∧ execute_python_code_variant (Code.parsed [Stmt.ret (some (.name "y"))])
        ⟨Option.none, "default_session", [], []⟩ ⟨[], []⟩ =
      { status := "failed", result := Value.dict [], created_files := [],
        error := some "NameError: name \x27y\x27 is not defined" } := by
  refine ⟨rfl, ?_⟩
  exact ((runner_catches_all_exceptions ⟨Option.none, "default_session", [], []⟩ ⟨[], []⟩).2.1
    [Stmt.ret (some (.name "y"))] ⟨"NameError", "name \x27y\x27 is not defined"⟩ []
    (safe_globals ⟨Option.none, "default_session", [], []⟩) rfl).trans rfl

/-! ### Claim C9 -/

/-- **C9** — `safe_globals` is built by spreading `SAFE_BUILTINS`, the tool
proxies and the ambient bindings first and merging `globals_schema` last, so
every key of `globals_schema` wins: its value is what both a plain dict
lookup and the executed code's global name resolution (globals first, then
the builtins dict) see, overriding any same-named builtin, proxy or ambient
binding. -/
theorem prior_bindings_override (p : ExecParams) (k : String) (v : Value)
    (h : dget p.globals_schema k = some v) :
    dget (safe_globals p) k = some v
    ∧ lookupGlobalName (safe_globals p) k = some v := by
  have hne : p.globals_schema.isEmpty = false := by
    cases hgs : p.globals_schema with
    | nil => rw [hgs] at h; simp [dget] at h
    | cons a l => simp
  have h1 : dget (safe_globals p) k = some v := by
    unfold safe_globals
    rw [hne]
    simp only [Bool.false_eq_true, if_false]
    exact dget_append_right _ _ _ _ h
  exact ⟨h1, by simp [lookupGlobalName, h1]⟩

/-- Witness for C9: a `globals_schema` entry named `len` shadows the
allow-listed builtin `len` for the executed code. -/
theorem prior_bindings_override_witness :
    dget [("len", Value.int 5)] "len" = some (Value.int 5)
    ∧ (dget (safe_globals ⟨Option.none, "s", [("len", Value.int 5)], []⟩) "len" =
        some (Value.int 5)
      ∧ lookupGlobalName (safe_globals ⟨Option.none, "s", [("len", Value.int 5)], []⟩) "len" =
        some (Value.int 5)) :=
  ⟨rfl, prior_bindings_override ⟨Option.none, "s", [("len", Value.int 5)], []⟩ "len"
    (Value.int 5) rfl⟩

/-! ### Claim C2 -/

/-- Invocation parameters and filesystem used by the concrete evaluations. -/
def demoParams : ExecParams := ⟨Option.none, "default_session", [], []⟩

/-- An empty filesystem for the concrete evaluations. -/
def demoFs : Fs := ⟨[], []⟩

/-- **C2** (code bug) — The explicit-return half holds: a unit returning the
non-None value `7` yields result `7`.  The "otherwise" half does not: at the
input `x = 1` (no return) the unit binds `x := 1` in its local frame during
execution, yet the outcome's result is the EMPTY dict — `local_vars` after
`exec` holds only the scaffolding function `__async_exec` (filtered out by
the `'__'` rule), never the names bound inside the unit, which are function
locals of the coroutine.  The claim (and the code's own result-extraction
intent) requires the mapping `{x: 1}` here. -/
theorem result_extraction_at_failing_input :
    (execute_python_code_variant (Code.parsed [.assign "x" (.const (.int 1))])
        demoParams demoFs).status = "success"
    ∧ (execute_python_code_variant (Code.parsed [.assign "x" (.const (.int 1))])
        demoParams demoFs).result = Value.dict []
    ∧ runAsyncUnit (toolSpecOf demoParams.tools)
        (buildAsyncExec (toolNamesOf demoParams.tools) [.assign "x" (.const (.int 1))]).body
        (safe_globals demoParams) =
        .finished .none [("x", Value.int 1)] (safe_globals demoParams)
    ∧ Value.dict [] ≠ Value.dict [("x", Value.int 1)]
    ∧ (execute_python_code_variant
        (Code.parsed [.assign "x" (.const (.int 7)), .ret (some (.name "x"))])
        demoParams demoFs).result = Value.int 7 := by
  refine ⟨rfl, rfl, rfl, ?_, rfl⟩
  intro h
  simp at h

/-! ### Claim C5 -/

mutual

/-- No call expression anywhere inside `e` has a bare proxy name as its
callee. -/
def noProxyCall (tools : List String) : Expr → Bool
  | .const _ => true
  | .name _ => true
  | .attr obj _ => noProxyCall tools obj
  | .awaitE e => noProxyCall tools e
  | .call callee args =>
    (match callee with
     | .name f => decide (f ∉ tools)
     | _ => true)
    && noProxyCall tools callee && noProxyCallList tools args

/-- `noProxyCall` over a list of argument expressions. -/
def noProxyCallList (tools : List String) : List Expr → Bool
  | [] => true
  | e :: es => noProxyCall tools e && noProxyCallList tools es

end

mutual

theorem AwaitTransformer_id (tools : List String) :
    ∀ e : Expr, noProxyCall tools e = true → AwaitTransformer tools e = e
  | .const _, _ => rfl
  | .name _, _ => rfl
  | .attr obj f, h => by
    simp only [noProxyCall] at h
    simp only [AwaitTransformer, AwaitTransformer_id tools obj h]
  | .awaitE e, h => by
    simp only [noProxyCall] at h
    simp only [AwaitTransformer, AwaitTransformer_id tools e h]
  | .call callee args, h => by
    simp only [noProxyCall, Bool.and_eq_true] at h
    obtain ⟨⟨hc, hcallee⟩, hargs⟩ := h
    have h1 := AwaitTransformer_id tools callee hcallee
    have h2 := AwaitTransformerList_id tools args hargs
    simp only [AwaitTransformer]
    rw [h1, h2]
    cases callee with
    | name f =>
      have hf : f ∉ tools := by simpa using hc
      simp [hf]
    | const v => rfl
    | attr o fl => rfl
    | call c a => rfl
    | awaitE e => rfl

theorem AwaitTransformerList_id (tools : List String) :
    ∀ es : List Expr, noProxyCallList tools es = true → AwaitTransformerList tools es = es
  | [], _ => rfl
  | e :: es, h => by
    simp only [noProxyCallList, Bool.and_eq_true] at h
    simp only [AwaitTransformerList, AwaitTransformer_id tools e h.1,
      AwaitTransformerList_id tools es h.2]

end

theorem callTool_ok_mem (ts : ToolSpec) (t : String) (args : List Value) (w : Value)
    (h : callTool ts t args = .ok w) : t ∈ ts.map Prod.fst := by
  induction ts with
  | nil => simp [callTool] at h
  | cons a ts ih =>
    obtain ⟨n, f⟩ := a
    simp only [callTool] at h
    by_cases he : n = t
    · simp [he]
    · rw [if_neg he] at h
      simp [ih h]

theorem dget_toolFuncs (ts : ToolSpec) :
    ∀ t : String,
      dget (toolFuncs (some ts)) t =
        if t ∈ ts.map Prod.fst then some (Value.proxyFn t) else Option.none := by
  induction ts with
  | nil => intro t; simp [toolFuncs, dget]
  | cons a l ih =>
    intro t
    have ihx := ih t
    simp only [toolFuncs, make_tool_proxy] at ihx ⊢
    simp only [List.map_cons, dget, ihx]
    by_cases hm : t ∈ l.map Prod.fst
    · simp [hm]
    · simp only [hm, if_false]
      by_cases he : a.1 = t
      · subst he
        simp
      · simp [he, hm, Ne.symm he]

theorem proxy_call_value_flows (ts : ToolSpec) (sid : String) (inputs : PyDict)
    (v w : Value) (fs : Fs)
    (hcall : callTool ts "search" [v] = Except.ok w)
    (hw : w ≠ Value.none) :
    (execute_python_code_variant
        (Code.parsed [.assign "result" (.call (.name "search") [.const v]),
                      .ret (some (.name "result"))])
        ⟨some ts, sid, [], inputs⟩ fs).status = "success"
    ∧ (execute_python_code_variant
        (Code.parsed [.assign "result" (.call (.name "search") [.const v]),
                      .ret (some (.name "result"))])
        ⟨some ts, sid, [], inputs⟩ fs).result = w := by
  have hmem : "search" ∈ ts.map Prod.fst := callTool_ok_mem ts "search" [v] w hcall
  have hdgAmb : dget [("multi_mcp", Value.mcpHandle), ("session_id", Value.str sid),
      ("output_dir", Value.str (output_dir_of sid)), ("inputs", Value.dict inputs),
      ("globals_schema", Value.dict ([] : PyDict))] "search" = Option.none := by
    simp [dget]
  have hdg : dget (safe_globals ⟨some ts, sid, [], inputs⟩) "search" =
      some (Value.proxyFn "search") := by
    unfold safe_globals
    simp only [List.isEmpty_nil, if_true, List.append_nil]
    rw [dget_append_left _ _ _ hdgAmb]
    refine dget_append_right _ _ _ _ ?_
    rw [dget_toolFuncs ts "search"]
    simp [hmem]
  have hlg : lookupGlobalName (safe_globals ⟨some ts, sid, [], inputs⟩) "search" =
      some (Value.proxyFn "search") := by
    simp [lookupGlobalName, hdg]
  have hn : ¬ ("search" ∈ (["result"] : List String)) := by simp
  have h1 : evalExpr ts ["result"] (safe_globals ⟨some ts, sid, [], inputs⟩) []
      (.awaitE (.call (.name "search") [.const v])) = Except.ok w := by
    simp only [evalExpr, evalExprList]
    rw [if_neg hn, hlg]
    exact hcall
  have hrun : runAsyncUnit (toolSpecOf (some ts))
      [Stmt.assign "result" (.awaitE (.call (.name "search") [.const v])),
       Stmt.ret (some (.name "result"))]
      (safe_globals ⟨some ts, sid, [], inputs⟩) =
      .finished w [("result", w)] (safe_globals ⟨some ts, sid, [], inputs⟩) := by
    rw [show runAsyncUnit (toolSpecOf (some ts))
        [Stmt.assign "result" (.awaitE (.call (.name "search") [.const v])),
         Stmt.ret (some (.name "result"))]
        (safe_globals ⟨some ts, sid, [], inputs⟩) =
      runStmts ts ["result"] []
        [Stmt.assign "result" (.awaitE (.call (.name "search") [.const v])),
         Stmt.ret (some (.name "result"))] []
        (safe_globals ⟨some ts, sid, [], inputs⟩) from rfl]
    simp only [runStmts]
    rw [h1]
    rfl
  have hstep : execute_python_code_variant
      (Code.parsed [.assign "result" (.call (.name "search") [.const v]),
                    .ret (some (.name "result"))])
      ⟨some ts, sid, [], inputs⟩ fs =
      ({ status := "success",
         result := extractResult [("__async_exec", Value.scaffoldFn)] w,
         created_files := listOutputFiles (mkdirParents fs sid) sid,
         error := Option.none } : Outcome) := by
    simp only [execute_python_code_variant, execute_python_code_variant_full,
      buildAsyncExec, toolNamesOf, transformStmt, AwaitTransformer,
      AwaitTransformerList, List.map_cons, List.map_nil]
    rw [if_pos hmem, hrun]
  have hres : extractResult [("__async_exec", Value.scaffoldFn)] w = w := by
    rcases w with _ | b | n | s | d | nb | pt | ⟨ct, ca⟩ | _ | _
    · exact absurd rfl hw
    all_goals rfl
  rw [hres] at hstep
  exact ⟨by rw [hstep], by rw [hstep]⟩

/-- **C5** — The rewriter wraps the parsed statement sequence as the body of
the single zero-parameter suspendable unit `__async_exec` and converts
exactly the call expressions whose callee is a bare name in the proxy-name
set into awaited suspension points: a bare-name call is awaited iff its name
is in the set, an attribute-style call is left unrewritten (only its children
are visited), and an expression with no bare-proxy-name call anywhere is left
unchanged.  Within the rewritten unit, a proxy call's completed result is the
value of that call expression in subsequent statements: `result =
search("x")` followed by `return result` yields the tool's returned value. -/
theorem rewriter_awaits_exactly_bare_proxy_calls :
    (∀ (tools : List String) (body : List Stmt),
      buildAsyncExec tools body =
        { name := "__async_exec", args := [], body := body.map (transformStmt tools) })
    ∧ (∀ (tools : List String) (f : String) (args : List Expr),
        AwaitTransformer tools (.call (.name f) args) =
          if f ∈ tools then
            Expr.awaitE (.call (.name f) (AwaitTransformerList tools args))
          else .call (.name f) (AwaitTransformerList tools args))
    ∧ (∀ (tools : List String) (obj : Expr) (fld : String) (args : List Expr),
        AwaitTransformer tools (.call (.attr obj fld) args) =
          .call (.attr (AwaitTransformer tools obj) fld) (AwaitTransformerList tools args))
    ∧ (∀ (tools : List String) (e : Expr),
        noProxyCall tools e = true → AwaitTransformer tools e = e)
    ∧ (∀ (ts : ToolSpec) (sid : String) (inputs : PyDict) (v w : Value) (fs : Fs),
        callTool ts "search" [v] = Except.ok w → w ≠ Value.none →
        (execute_python_code_variant
            (Code.parsed [.assign "result" (.call (.name "search") [.const v]),
                          .ret (some (.name "result"))])
            ⟨some ts, sid, [], inputs⟩ fs).status = "success"
        ∧ (execute_python_code_variant
            (Code.parsed [.assign "result" (.call (.name "search") [.const v]),
                          .ret (some (.name "result"))])
            ⟨some ts, sid, [], inputs⟩ fs).result = w) := by
  refine ⟨fun tools body => rfl, fun tools f args => rfl, fun tools obj fld args => rfl,
    AwaitTransformer_id, proxy_call_value_flows⟩

/-- Witness for C5: one registered tool `search` returning `3`; the variant
`result = search("x"); return result` succeeds with result `3`. -/
theorem rewriter_awaits_exactly_bare_proxy_calls_witness :
    (callTool [("search", fun _ => Except.ok (Value.int 3))] "search" [Value.str "x"] =
        Except.ok (Value.int 3))
    ∧ ((execute_python_code_variant
          (Code.parsed [.assign "result" (.call (.name "search") [.const (.str "x")]),
                        .ret (some (.name "result"))])
          ⟨some [("search", fun _ => Except.ok (Value.int 3))], "s", [], []⟩
          ⟨[], []⟩).status = "success"
       ∧ (execute_python_code_variant
          (Code.parsed [.assign "result" (.call (.name "search") [.const (.str "x")]),
                        .ret (some (.name "result"))])
          ⟨some [("search", fun _ => Except.ok (Value.int 3))], "s", [], []⟩
          ⟨[], []⟩).result = Value.int 3) := by
  refine ⟨rfl, ?_⟩
  exact rewriter_awaits_exactly_bare_proxy_calls.2.2.2.2
    [("search", fun _ => Except.ok (Value.int 3))] "s" [] (Value.str "x") (Value.int 3)
    ⟨[], []⟩ rfl (fun h => nomatch h)

/-! ### Claim C10 -/

/-- **C10** — Every variant attempt executes against a freshly constructed
execution context: the runner rebuilds the proxy mapping, the globals dict
and the locals dict from the invocation parameters alone, and the sequencer
discards the (possibly mutated) globals dict of each attempt.  In general, a
variant that reads a name `x` the fresh context does not know fails with
`NameError` regardless of what any earlier variants of the same trial
sequence did; concretely, a first variant that binds `x` through a `global`
declaration really does mutate its own globals dict before raising, yet the
second variant still fails with `NameError` on `x`. -/
theorem fresh_context_per_attempt :
    (∀ (c : Code) (p : ExecParams) (fs : Fs),
       execute_python_code_variant c p fs = (execute_python_code_variant_full c p fs).1)
    ∧ (∀ (p : ExecParams) (fs : Fs) (cv : List (String × Code))
         (pre : List (String × Code)) (n x : String) (post : List (String × Code)),
        sortVariants cv = pre ++ (n, Code.parsed [.ret (some (.name x))]) :: post →
        (∀ y ∈ pre, (execute_python_code_variant y.2 p fs).status ≠ "success") →
        lookupGlobalName (safe_globals p) x = Option.none →
        execute_python_code_variant (Code.parsed [.ret (some (.name x))]) p fs =
          { status := "failed", result := Value.dict [], created_files := [],
            error := some ("NameError: name " ++ q x ++ " is not defined") }
        ∧ trialLoop (fun c => execute_python_code_variant c p fs) (sortVariants cv) [] =
            trialLoop (fun c => execute_python_code_variant c p fs) post
              (pre.map (fun y => variantErrMsg y.1 (execute_python_code_variant y.2 p fs))
                ++ [n ++ ": " ++ ("NameError: name " ++ q x ++ " is not defined")]))
    ∧ (execute_python_code_variant_full
          (Code.parsed [.globalDecl "x", .assign "x" (.const (.int 1)),
                        .raiseStmt "ValueError" "boom"]) demoParams demoFs).2 =
        safe_globals demoParams ++ [("x", Value.int 1)]
    ∧ execute_code_variants (fun c => execute_python_code_variant c demoParams demoFs)
        [("A", Code.parsed [.globalDecl "x", .assign "x" (.const (.int 1)),
                            .raiseStmt "ValueError" "boom"]),
         ("B", Code.parsed [.ret (some (.name "x"))])] =
      { status := "failed", result := Value.dict [], created_files := [],
        error := some ("All code variants failed. Errors: A: ValueError: boom; B: NameError: name \x27x\x27 is not defined"),
        failed_variants := some 2,
        all_errors := some ["A: ValueError: boom",
                            "B: NameError: name \x27x\x27 is not defined"] } := by
  refine ⟨fun c p fs => rfl, ?_, rfl, rfl⟩
  intro p fs cv pre n x post hsplit hpre hlx
  have hev : evalExpr (toolSpecOf p.tools) [] (safe_globals p) [] (.name x) =
      Except.error ⟨"NameError", "name " ++ q x ++ " is not defined"⟩ := by
    simp only [evalExpr]
    rw [if_neg (List.not_mem_nil x), hlx]
  have hru : runAsyncUnit (toolSpecOf p.tools) [Stmt.ret (some (.name x))]
      (safe_globals p) =
      UnitResult.raised ⟨"NameError", "name " ++ q x ++ " is not defined"⟩ []
        (safe_globals p) := by
    rw [show runAsyncUnit (toolSpecOf p.tools) [Stmt.ret (some (.name x))] (safe_globals p) =
        runStmts (toolSpecOf p.tools) [] [] [Stmt.ret (some (.name x))] []
          (safe_globals p) from rfl]
    simp only [runStmts]
    rw [hev]
  have hvar : execute_python_code_variant (Code.parsed [.ret (some (.name x))]) p fs =
      { status := "failed", result := Value.dict [], created_files := [],
        error := some ("NameError: name " ++ q x ++ " is not defined") } := by
    simp only [execute_python_code_variant, execute_python_code_variant_full,
      buildAsyncExec, transformStmt, AwaitTransformer, List.map_cons, List.map_nil]
    rw [hru]
    rfl
  refine ⟨hvar, ?_⟩
  rw [hsplit, trialLoop_append_fails _ pre _ [] hpre]
  simp only [trialLoop, hvar]
  rw [if_neg (by decide : ¬ (("failed" : String) = "success"))]
  simp [variantErrMsg]

/-- Witness for C10: variant `A` sets `global x; x = 1` then raises; variant
`B` (`return x`) still fails with `NameError` — the binding did not survive
into `B`'s fresh context. -/
theorem fresh_context_per_attempt_witness :
    (sortVariants [("A", Code.parsed [.globalDecl "x", .assign "x" (.const (.int 1)),
                                      .raiseStmt "ValueError" "boom"]),
                   ("B", Code.parsed [.ret (some (.name "x"))])] =
      [("A", Code.parsed [.globalDecl "x", .assign "x" (.const (.int 1)),
                          .raiseStmt "ValueError" "boom"])] ++
        ("B", Code.parsed [.ret (some (.name "x"))]) :: [])
    ∧ lookupGlobalName (safe_globals demoParams) "x" = Option.none
    ∧ execute_python_code_variant (Code.parsed [.ret (some (.name "x"))])
        demoParams demoFs =
        { status := "failed", result := Value.dict [], created_files := [],
          error := some ("NameError: name " ++ q "x" ++ " is not defined") } := by
  refine ⟨rfl, rfl, ?_⟩
  exact (fresh_context_per_attempt.2.1 demoParams demoFs
    [("A", Code.parsed [.globalDecl "x", .assign "x" (.const (.int 1)),
                        .raiseStmt "ValueError" "boom"]),
     ("B", Code.parsed [.ret (some (.name "x"))])]
    [("A", Code.parsed [.globalDecl "x", .assign "x" (.const (.int 1)),
                        .raiseStmt "ValueError" "boom"])]
    "B" "x" []
    rfl
    (by
      intro y hy
      simp only [List.mem_singleton] at hy
      subst hy
      decide)
    rfl).1

/-! ### Claim C3 -/

/-- `"files" in output_data and output_data["files"]`: present AND truthy. -/
def filesPresent (od : OutputData) : Bool :=
  match od.files with
  | some fd => !fd.isEmpty
  | Option.none => false

/-- `"code_variants" in output_data and output_data["code_variants"]`. -/
def codePresent (od : OutputData) : Bool :=
  match od.code_variants with
  | some cv => !cv.isEmpty
  | Option.none => false

theorem foldl_write_status (output_dir : String) (ioFail : String → Option String) :
    ∀ (l : List (String × String)) (acc : FileResults × Fs),
      acc.1.status = "success" ∨ acc.1.status = "partial_failure" →
      ((l.foldl (writeOneFile output_dir ioFail) acc).1.status = "success" ∨
       (l.foldl (writeOneFile output_dir ioFail) acc).1.status = "partial_failure") := by
  intro l
  induction l with
  | nil => intro acc h; exact h
  | cons fc l ih =>
    intro acc h
    rw [List.foldl_cons]
    refine ih _ ?_
    obtain ⟨results, fs⟩ := acc
    obtain ⟨filename, content⟩ := fc
    simp only [writeOneFile]
    split
    · right; rfl
    · split
      · right; rfl
      · exact h

theorem process_files_status (fd : List (String × String)) (sid : String)
    (ioFail : String → Option String) (fs0 : Fs) :
    (process_direct_files fd sid ioFail fs0).1.status = "success" ∨
    (process_direct_files fd sid ioFail fs0).1.status = "partial_failure" := by
  simp only [process_direct_files]
  exact foldl_write_status (output_dir_of sid) ioFail fd _ (Or.inl rfl)

theorem execute_variant_status (c : Code) (p : ExecParams) (fs : Fs) :
    (execute_python_code_variant c p fs).status = "success" ∨
    (execute_python_code_variant c p fs).status = "failed" := by
  cases c with
  | invalid m => right; rfl
  | parsed body =>
    simp only [execute_python_code_variant, execute_python_code_variant_full]
    split
    · right; rfl
    · left; rfl

theorem trialLoop_ok_status (run : Code → Outcome) :
    ∀ (l : List (String × Code)) (errs : List String) (r : Outcome),
      trialLoop run l errs = .ok r → r.status = "success" := by
  intro l
  induction l with
  | nil => intro errs r h; simp [trialLoop] at h
  | cons y l ih =>
    intro errs r h
    obtain ⟨n, c⟩ := y
    simp only [trialLoop] at h
    by_cases hs : (run c).status = "success"
    · rw [if_pos hs] at h
      simp only [Except.ok.injEq] at h
      subst h
      exact hs
    · rw [if_neg hs] at h
      exact ih _ _ h

theorem execute_code_variants_status (run : Code → Outcome) (cv : List (String × Code)) :
    (execute_code_variants run cv).status = "success" ∨
    (execute_code_variants run cv).status = "failed" := by
  simp only [execute_code_variants]
  split
  · next r hr => exact Or.inl (trialLoop_ok_status run _ [] r hr)
  · right; rfl

/-- **C3** (amended) — With the modelled escape point for an unexpected
error, the overall status is exactly one of `success`, `partial_failure`,
`failed`, `no_operation`, and: `failed` iff an unexpected error escaped;
`no_operation` iff no unexpected error and neither a truthy `files` nor a
truthy `code_variants` mapping was in the input; `partial_failure` iff no
unexpected error and some phase ran and did not succeed (regardless of
whether any other phase succeeded or any files were created); `success` iff
no unexpected error, at least one phase ran and every phase that ran
succeeded.  A phase runs iff its mapping is present and nonempty (and no
unexpected error escaped). -/
theorem run_user_code_status_classification (od : OutputData) (p : ExecParams)
    (ioFail : String → Option String) (unexpected : Option String) (fs0 : Fs) :
    ((run_user_code od p ioFail unexpected fs0).status = "failed" ↔
        unexpected ≠ Option.none)
    ∧ ((run_user_code od p ioFail unexpected fs0).status = "no_operation" ↔
        (unexpected = Option.none ∧ filesPresent od = false ∧ codePresent od = false))
    ∧ ((run_user_code od p ioFail unexpected fs0).status = "partial_failure" ↔
        (unexpected = Option.none ∧
          ((∃ fr, (run_user_code od p ioFail unexpected fs0).file_results = some fr ∧
              fr.status ≠ "success") ∨
           (∃ cr, (run_user_code od p ioFail unexpected fs0).code_results = some cr ∧
              cr.status ≠ "success"))))
    ∧ ((run_user_code od p ioFail unexpected fs0).status = "success" ↔
        (unexpected = Option.none ∧ (filesPresent od = true ∨ codePresent od = true) ∧
          (∀ fr, (run_user_code od p ioFail unexpected fs0).file_results = some fr →
            fr.status = "success") ∧
          (∀ cr, (run_user_code od p ioFail unexpected fs0).code_results = some cr →
            cr.status = "success")))
    ∧ ((run_user_code od p ioFail unexpected fs0).file_results.isSome ↔
        (unexpected = Option.none ∧ filesPresent od = true))
    ∧ ((run_user_code od p ioFail unexpected fs0).code_results.isSome ↔
        (unexpected = Option.none ∧ codePresent od = true))
    ∧ ((run_user_code od p ioFail unexpected fs0).status = "success" ∨
        (run_user_code od p ioFail unexpected fs0).status = "partial_failure" ∨
        (run_user_code od p ioFail unexpected fs0).status = "failed" ∨
        (run_user_code od p ioFail unexpected fs0).status = "no_operation") := by
  obtain ⟨filesOpt, cvOpt⟩ := od
  cases unexpected with
  | some m => simp [run_user_code, filesPresent, codePresent]
  | none =>
    cases filesOpt with
    | none =>
      cases cvOpt with
      | none => simp [run_user_code, filesPresent, codePresent]
      | some cv =>
        by_cases hcv : cv.isEmpty
        · simp [run_user_code, filesPresent, codePresent, hcv]
        · rcases execute_code_variants_status
            (fun c => execute_python_code_variant c p fs0) cv with hcr | hcr
          · simp [run_user_code, filesPresent, codePresent, hcv, hcr]
          · simp [run_user_code, filesPresent, codePresent, hcv, hcr]
    | some fd =>
      by_cases hfd : fd.isEmpty
      · cases cvOpt with
        | none => simp [run_user_code, filesPresent, codePresent, hfd]
        | some cv =>
          by_cases hcv : cv.isEmpty
          · simp [run_user_code, filesPresent, codePresent, hfd, hcv]
          · rcases execute_code_variants_status
              (fun c => execute_python_code_variant c p fs0) cv with hcr | hcr
            · simp [run_user_code, filesPresent, codePresent, hfd, hcv, hcr]
            · simp [run_user_code, filesPresent, codePresent, hfd, hcv, hcr]
      · rcases process_files_status fd p.session_id ioFail fs0 with hfr | hfr
        · cases cvOpt with
          | none => simp [run_user_code, filesPresent, codePresent, hfd, hfr]
          | some cv =>
            by_cases hcv : cv.isEmpty
            · simp [run_user_code, filesPresent, codePresent, hfd, hcv, hfr]
            · rcases execute_code_variants_status
                (fun c => execute_python_code_variant c p
                  (process_direct_files fd p.session_id ioFail fs0).2) cv with hcr | hcr
              · simp [run_user_code, filesPresent, codePresent, hfd, hcv, hfr, hcr]
              · simp [run_user_code, filesPresent, codePresent, hfd, hcv, hfr, hcr]
        · cases cvOpt with
          | none => simp [run_user_code, filesPresent, codePresent, hfd, hfr]
          | some cv =>
            by_cases hcv : cv.isEmpty
            · simp [run_user_code, filesPresent, codePresent, hfd, hcv, hfr]
            · rcases execute_code_variants_status
                (fun c => execute_python_code_variant c p
                  (process_direct_files fd p.session_id ioFail fs0).2) cv with hcr | hcr
              · simp [run_user_code, filesPresent, codePresent, hfd, hcv, hfr, hcr]
              · simp [run_user_code, filesPresent, codePresent, hfd, hcv, hfr, hcr]

/-- **C3** counterexample to the claim as stated: (i) an input whose only
content is a single failing code variant ends with overall status
`partial_failure`, although no other phase ran or succeeded and no files were
created — the claim allows `partial_failure` only when "at least one other
phase succeeded or some files were created", and none of its other three
statuses fits this input either, so the claimed classification is not
exhaustive; (ii) an input whose `files` mapping is present but empty (and no
code variants) yields `no_operation`, although the claim reserves
`no_operation` for inputs where `files` was not present. -/
theorem status_classification_claim_cex :
    ((run_user_code ⟨Option.none,
        some [("CODE_1A", Code.parsed [.raiseStmt "ValueError" "boom"])]⟩
        demoParams (fun _ => Option.none) Option.none demoFs).status = "partial_failure"
     ∧ (run_user_code ⟨Option.none,
        some [("CODE_1A", Code.parsed [.raiseStmt "ValueError" "boom"])]⟩
        demoParams (fun _ => Option.none) Option.none demoFs).created_files = []
     ∧ (run_user_code ⟨Option.none,
        some [("CODE_1A", Code.parsed [.raiseStmt "ValueError" "boom"])]⟩
        demoParams (fun _ => Option.none) Option.none demoFs).file_results = Option.none
     ∧ ((run_user_code ⟨Option.none,
        some [("CODE_1A", Code.parsed [.raiseStmt "ValueError" "boom"])]⟩
        demoParams (fun _ => Option.none) Option.none demoFs).code_results.map
          (fun cr => cr.status)) = some "failed")
    ∧ (run_user_code ⟨some [], Option.none⟩ demoParams (fun _ => Option.none)
        Option.none demoFs).status = "no_operation" :=
  ⟨⟨rfl, rfl, rfl, rfl⟩, rfl⟩

/-! ### Claim C8 -/

/-- A single normal path component: nonempty, not a dot-entry, no separator. -/
def normalComponent (s : String) : Bool :=
  decide (¬ '/' ∈ s.data) && decide (s ≠ "") && decide (s ≠ ".") && decide (s ≠ "..")

theorem foldr_splitSlashStep_ne_nil : ∀ (l : List Char) (p : List Char),
    l.foldr splitSlashStep [p] ≠ [] := by
  intro l
  induction l with
  | nil => intro p; simp
  | cons c l ih =>
    intro p
    rw [List.foldr_cons]
    rcases h : l.foldr splitSlashStep [p] with _ | ⟨q, qs⟩
    · exact absurd h (ih p)
    · simp only [splitSlashStep]
      by_cases hc : c = '/' <;> simp [hc]

theorem foldr_splitSlashStep_extend : ∀ (l : List Char) (p : List Char)
    (rest : List (List Char)),
    l.foldr splitSlashStep (p :: rest) = l.foldr splitSlashStep [p] ++ rest := by
  intro l
  induction l with
  | nil => intro p rest; rfl
  | cons c l ih =>
    intro p rest
    rw [List.foldr_cons, List.foldr_cons, ih p rest]
    rcases h : l.foldr splitSlashStep [p] with _ | ⟨q, qs⟩
    · exact absurd h (foldr_splitSlashStep_ne_nil l p)
    · simp only [List.cons_append, splitSlashStep]
      by_cases hc : c = '/' <;> simp [hc]

theorem splitSlash_append (a b : String) :
    splitSlash (a ++ "/" ++ b) = splitSlash a ++ splitSlash b := by
  unfold splitSlash
  rw [show (a ++ "/" ++ b).data = a.data ++ ('/' :: b.data) from by
    simp [String.data_append]]
  rw [List.foldr_append]
  have hhead : List.foldr splitSlashStep [[]] ('/' :: b.data) =
      [] :: b.data.foldr splitSlashStep [[]] := by
    rw [List.foldr_cons]
    rcases hb : b.data.foldr splitSlashStep [[]] with _ | ⟨q, qs⟩
    · exact absurd hb (foldr_splitSlashStep_ne_nil b.data [])
    · simp [splitSlashStep]
  rw [hhead]
  rcases hb : b.data.foldr splitSlashStep [[]] with _ | ⟨q, qs⟩
  · exact absurd hb (foldr_splitSlashStep_ne_nil b.data [])
  · rw [show List.foldr splitSlashStep ([] :: q :: qs) a.data =
        List.foldr splitSlashStep [[]] a.data ++ (q :: qs) from
      foldr_splitSlashStep_extend a.data [] (q :: qs)]
    simp [List.map_append]

theorem pathParts_append (a b : String) :
    pathParts (a ++ "/" ++ b) = pathParts a ++ pathParts b := by
  simp [pathParts, splitSlash_append, List.filter_append]

theorem splitSlash_single (s : String) (h : ¬ '/' ∈ s.data) : splitSlash s = [s] := by
  unfold splitSlash
  have hfold : ∀ (l : List Char), ¬ '/' ∈ l → l.foldr splitSlashStep [[]] = [l] := by
    intro l
    induction l with
    | nil => intro _; rfl
    | cons c l ih =>
      intro hc
      rw [List.foldr_cons, ih (fun hm => hc (List.mem_cons_of_mem c hm))]
      have hcs : ¬ c = '/' := fun he => hc (he ▸ List.mem_cons_self c l)
      simp [splitSlashStep, hcs]
  rw [hfold s.data h]
  rfl

theorem pathParts_single (s : String) (h : normalComponent s = true) : pathParts s = [s] := by
  simp only [normalComponent, Bool.and_eq_true, decide_eq_true_eq] at h
  obtain ⟨⟨⟨hsl, hne⟩, hdot⟩, _⟩ := h
  simp [pathParts, splitSlash_single s hsl, hne, hdot]

theorem splitSlash_pieces_no_slash (s : String) :
    ∀ piece ∈ splitSlash s, ¬ '/' ∈ piece.data := by
  have hfold : ∀ (l : List Char) (piece : List Char),
      piece ∈ l.foldr splitSlashStep [[]] → ¬ '/' ∈ piece := by
    intro l
    induction l with
    | nil =>
      intro piece hp
      simp only [List.foldr_nil, List.mem_singleton] at hp
      subst hp
      simp
    | cons c l ih =>
      intro piece hp
      rw [List.foldr_cons] at hp
      rcases hq : l.foldr splitSlashStep [[]] with _ | ⟨q, qs⟩
      · exact absurd hq (foldr_splitSlashStep_ne_nil l [])
      · rw [hq] at hp
        simp only [splitSlashStep] at hp
        by_cases hc : c = '/'
        · rw [if_pos hc] at hp
          rcases List.mem_cons.1 hp with h1 | h1
          · subst h1; simp
          · exact ih piece (by rw [hq]; exact h1)
        · rw [if_neg hc] at hp
          rcases List.mem_cons.1 hp with h1 | h1
          · subst h1
            intro hm
            rcases List.mem_cons.1 hm with h2 | h2
            · exact hc h2.symm
            · exact ih q (by rw [hq]; exact List.mem_cons_self q qs) h2
          · exact ih piece (by rw [hq]; exact List.mem_cons_of_mem q h1)
  intro piece hp
  unfold splitSlash at hp
  obtain ⟨cs, hcs, rfl⟩ := List.mem_map.1 hp
  simpa using hfold s.data cs hcs

theorem pathName_cases (s : String) :
    pathName s = "" ∨
    (pathName s ≠ "" ∧ pathName s ≠ "." ∧ ¬ '/' ∈ (pathName s).data) := by
  rcases h : (pathParts s).getLast? with _ | p
  · left
    unfold pathName
    rw [h]
    rfl
  · right
    have hmem : p ∈ pathParts s := List.mem_of_mem_getLast? h
    have hsp : p ∈ splitSlash s := (List.mem_filter.1 hmem).1
    have hpred := (List.mem_filter.1 hmem).2
    simp only [Bool.and_eq_true, decide_eq_true_eq] at hpred
    unfold pathName
    rw [h]
    exact ⟨hpred.1, hpred.2, splitSlash_pieces_no_slash s p hsp⟩

theorem writeOneFile_dirs (output_dir : String) (ioFail : String → Option String)
    (acc : FileResults × Fs) (fc : String × String) :
    ((writeOneFile output_dir ioFail acc fc).2).dirs = acc.2.dirs := by
  obtain ⟨results, fs⟩ := acc
  obtain ⟨filename, content⟩ := fc
  simp only [writeOneFile]
  split
  · rfl
  · split
    · rfl
    · rfl

theorem resolve_outdir_parent (sid : String) (h : normalComponent sid = true) :
    resolvePath (output_dir_of sid ++ "/" ++ "..") = "media/generated" := by
  have hdd : sid ≠ ".." := by
    simp only [normalComponent, Bool.and_eq_true, decide_eq_true_eq] at h
    exact h.2
  unfold resolvePath
  rw [show output_dir_of sid = "media/generated" ++ "/" ++ sid from rfl]
  rw [pathParts_append, pathParts_append, pathParts_single sid h]
  rw [show pathParts "media/generated" = ["media", "generated"] from rfl,
    show pathParts ".." = [".."] from rfl]
  simp [normParts, hdd, joinSep]

/-- **C8** (amended) — Each write targets the path obtained by joining the
session's output directory with `Path(filename).name`; that base name keeps
only the final path component, but that final component may itself be `..`
(e.g. for `"a/.."`) or empty, in which case the target is an existing
directory, the write raises, and the failure is recorded per-file.  Every
SUCCESSFUL write therefore lands at `output_dir/<c>` where `<c>` is a single
normal component (nonempty, not `.` or `..`, no separator): no successful
write ever lands outside the session's output directory. -/
theorem file_writes_confined (files_dict : List (String × String)) (sid : String)
    (ioFail : String → Option String) (fs0 : Fs)
    (hsid : normalComponent sid = true) :
    (∀ (results : FileResults) (fs : Fs) (filename content : String),
        (writeOneFile (output_dir_of sid) ioFail (results, fs) (filename, content)).1.created_files
          = results.created_files
        ∨ (writeOneFile (output_dir_of sid) ioFail (results, fs) (filename, content)).1.created_files
          = results.created_files ++ [pjoin (output_dir_of sid) (pathName filename)])
    ∧ ∀ pth ∈ (process_direct_files files_dict sid ioFail fs0).1.created_files,
        ∃ c, pth = output_dir_of sid ++ "/" ++ c ∧ normalComponent c = true := by
  constructor
  · intro results fs filename content
    simp only [writeOneFile]
    split
    · left; rfl
    · split
      · left; rfl
      · right; rfl
  · have H : ∀ (l : List (String × String)) (acc : FileResults × Fs),
        "media/generated" ∈ acc.2.dirs →
        resolvePath (output_dir_of sid) ∈ acc.2.dirs →
        (∀ pth ∈ acc.1.created_files,
          ∃ c, pth = output_dir_of sid ++ "/" ++ c ∧ normalComponent c = true) →
        ∀ pth ∈ (l.foldl (writeOneFile (output_dir_of sid) ioFail) acc).1.created_files,
          ∃ c, pth = output_dir_of sid ++ "/" ++ c ∧ normalComponent c = true := by
      intro l
      induction l with
      | nil => intro acc _ _ h3; exact h3
      | cons fc l ih =>
        intro acc h1 h2 h3
        rw [List.foldl_cons]
        refine ih _ ?_ ?_ ?_
        · rw [writeOneFile_dirs]; exact h1
        · rw [writeOneFile_dirs]; exact h2
        · obtain ⟨results, fs⟩ := acc
          obtain ⟨filename, content⟩ := fc
          intro pth hp
          simp only [writeOneFile] at hp
          by_cases hdir :
              resolvePath (pjoin (output_dir_of sid) (pathName filename)) ∈ fs.dirs
          · rw [if_pos hdir] at hp
            exact h3 pth hp
          · rw [if_neg hdir] at hp
            rcases hio : ioFail (pjoin (output_dir_of sid) (pathName filename)) with _ | m
            · rw [hio] at hp
              simp only [List.mem_append, List.mem_singleton] at hp
              rcases hp with hold | hnew
              · exact h3 pth hold
              · subst hnew
                rcases pathName_cases filename with hempty | ⟨hne, hndot, hnsl⟩
                · exfalso
                  apply hdir
                  rw [hempty]
                  simpa [pjoin] using h2
                · by_cases hdd : pathName filename = ".."
                  · exfalso
                    apply hdir
                    rw [show pjoin (output_dir_of sid) (pathName filename) =
                        output_dir_of sid ++ "/" ++ pathName filename from by
                      simp [pjoin, hne]]
                    rw [hdd, resolve_outdir_parent sid hsid]
                    exact h1
                  · refine ⟨pathName filename, ?_, ?_⟩
                    · simp [pjoin, hne]
                    · simp [normalComponent, hne, hndot, hdd, hnsl]
            · rw [hio] at hp
              exact h3 pth hp
    intro pth hp
    refine H files_dict _ ?_ ?_ ?_ pth hp
    · simp [mkdirParents]
    · simp [mkdirParents]
    · intro pth' hp'
      simp at hp'

/-- **C8** counterexample to the claim as stated: for the filename `"a/.."`
the base name is `".."` — a parent-directory reference the sanitization does
NOT strip — and the joined write target resolves to `media/generated`,
outside the session's output directory `media/generated/s1`; the attempted
write fails (the target is an existing directory) and is recorded as an
error, so nothing is created. -/
theorem filename_sanitization_cex :
    pathName "a/.." = ".."
    ∧ resolvePath (pjoin (output_dir_of "s1") (pathName "a/..")) = "media/generated"
    ∧ (process_direct_files [("a/..", "boom")] "s1" (fun _ => Option.none)
        ⟨[], []⟩).1.created_files = []
    ∧ (process_direct_files [("a/..", "boom")] "s1" (fun _ => Option.none)
        ⟨[], []⟩).1.status = "partial_failure"
    ∧ (process_direct_files [("../evil.txt", "x")] "s1" (fun _ => Option.none)
        ⟨[], []⟩).1.created_files = ["media/generated/s1/evil.txt"] :=
  ⟨rfl, rfl, rfl, rfl, rfl⟩

/-- Witness for the amended C8: the parent-escape filename `"../evil.txt"`
is written as the single normal component `evil.txt` inside the session
directory. -/
theorem file_writes_confined_witness :
    normalComponent "s1" = true
    ∧ ∃ c, "media/generated/s1/evil.txt" = output_dir_of "s1" ++ "/" ++ c
        ∧ normalComponent c = true := by
  refine ⟨by decide, ?_⟩
  exact (file_writes_confined [("../evil.txt", "x")] "s1" (fun _ => Option.none)
    ⟨[], []⟩ (by decide)).2 "media/generated/s1/evil.txt"
    (by rw [show (process_direct_files [("../evil.txt", "x")] "s1" (fun _ => Option.none)
        ⟨[], []⟩).1.created_files = ["media/generated/s1/evil.txt"] from rfl]
        exact List.mem_singleton.2 rfl)
